import Mathlib

/-!
Verification of the fixed-point decimal field model and multiply-assignment
engine of `NC101A.py`.

The embedding models the `decimal.Decimal` values of the source as exact
rationals (`ℚ`).  The source sets the decimal context precision to 60
significant digits; for the field widths the program declares (at most 18
integer and 12 fractional digits) no operation of the engine ever produces a
result whose quantized coefficient exceeds that precision, so exact rational
arithmetic coincides with the source semantics on every reachable value.
`Decimal.quantize(exp, ROUND_DOWN)` is integer truncation toward zero at the
chosen scale and `Decimal.quantize(exp, ROUND_HALF_UP)` is rounding to the
nearest multiple with ties away from zero; both are embedded below.  String
parsing of operand tokens (`Decimal(token_str)`) is not re-implemented:
a token carries the optional rational that the parse would produce, with
`none` standing for the `InvalidOperation` the constructor raises on
malformed text.  The mutable field registry `self.fields` is embedded as a
finite map `String → Option Field` threaded through the operations.
-/

unseal Rat.mul Rat.add Rat.sub Rat.inv Rat.ofScientific

namespace NC101A

/-- Integer truncation toward zero of a rational, the integer rounding
performed by `ROUND_DOWN` in `Field._quantize`. -/
def ratTrunc (q : ℚ) : ℤ := if 0 ≤ q then ⌊q⌋ else ⌈q⌉

/-- Rounding of a rational to the nearest integer with ties away from zero,
the integer rounding performed by `ROUND_HALF_UP` in `Field._quantize`. -/
def ratHalfUp (q : ℚ) : ℤ := if 0 ≤ q then ⌊q + 1 / 2⌋ else ⌈q - 1 / 2⌉

/-- Rescaling of a value to exactly `digitsRight` fractional digits, in the
mode selected by `rounded`; this is `Field._quantize` of the source, where
`value.quantize(Decimal(1).scaleb(-digits_right), rounding_mode)` rounds to an
integer multiple of `10 ^ -digits_right`. -/
def quantizeRat (digitsRight : ℕ) (rounded : Bool) (v : ℚ) : ℚ :=
  (((if rounded then ratHalfUp (v * 10 ^ digitsRight)
      else ratTrunc (v * 10 ^ digitsRight)) : ℤ) : ℚ) / 10 ^ digitsRight

/-- Embedding of the `Field` dataclass: a COBOL numeric field with
`digits_left` integer digits, `digits_right` fractional digits, a sign flag
and a current exact decimal value. -/
structure Field where
  name : String
  digits_left : ℕ
  digits_right : ℕ
  signed : Bool
  value : ℚ
deriving DecidableEq

/-- Embedding of `Field._quantize`. -/
def Field.quantize (f : Field) (value : ℚ) (rounded : Bool) : ℚ :=
  quantizeRat f.digits_right rounded value

/-- Embedding of `Field._fits`: an unsigned field rejects negative values;
otherwise the value must lie strictly between `-10 ^ digits_left` and
`10 ^ digits_left`. -/
def Field.fits (f : Field) (value : ℚ) : Bool :=
  if !f.signed && decide (value < 0) then false
  else decide (-(10 : ℚ) ^ f.digits_left < value) &&
    decide (value < (10 : ℚ) ^ f.digits_left)

/-- Embedding of `Field.set`: quantize the raw value, check the fit, and
either store the quantized value (returning `true`) or leave the field
unchanged (returning `false`).  The input `none` stands for a raw value whose
conversion `Decimal(str(raw))` raises, which `set` catches and reports as
`false` with the field unchanged. -/
def Field.set (f : Field) (raw : Option ℚ) (rounded : Bool) : Bool × Field :=
  match raw with
  | none => (false, f)
  | some v =>
    let q := f.quantize v rounded
    if f.fits q then (true, { f with value := q }) else (false, f)

/-- The field registry `self.fields`: a mapping from names to fields. -/
abbrev Registry := String → Option Field

/-- The constant registry `self.constants`: a mapping from names to values. -/
abbrev Constants := String → Option ℚ

/-- An operand token passed to `_resolve_value`: either a value that is
already numeric (a `Decimal` or `int` in the source), or a string together
with the rational its literal parse `Decimal(text)` would yield (`none` when
the parse raises `InvalidOperation`).  The `text` stands for the token string
after the `strip()` the source applies before any lookup. -/
inductive Token where
  | direct (q : ℚ)
  | str (text : String) (numeric : Option ℚ)

/-- Embedding of `NC101AProgram._resolve_value`: numeric tokens pass through;
a string is looked up first among fields (yielding the current field value),
then among constants, and otherwise parsed as a literal.  The result `none`
models the uncaught exception raised on an unknown, unparseable token. -/
def resolveValue (fields : Registry) (consts : Constants) : Token → Option ℚ
  | Token.direct q => some q
  | Token.str text numeric =>
    match fields text with
    | some f => some f.value
    | none =>
      match consts text with
      | some c => some c
      | none => numeric

/-- Pointwise update of the registry at one name. -/
def updateReg (reg : Registry) (n : String) (f : Field) : Registry :=
  fun k => if k = n then some f else reg k

/-- The receiver loop of `_multiply`: attempt `set(product)` on each receiver
in order.  On the first failing receiver it stops and reports a size error
together with the current (partially updated) registry, exactly as the
source loop does before its rollback.  The result `none` models the
`KeyError` raised on a receiver name absent from the registry. -/
def attemptAll (product : ℚ) (rounded : List String) :
    List String → Registry → Option (Bool × Registry)
  | [], reg => some (false, reg)
  | n :: rest, reg =>
    match reg n with
    | none => none
    | some f =>
      let res := f.set (some product) (rounded.contains n)
      if res.1 then attemptAll product rounded rest (updateReg reg n res.2)
      else some (true, reg)

/-- The rollback of `_multiply`: write each snapshot value back into the
value slot of the corresponding (current) field object. -/
def restoreValues (snaps : List (String × ℚ)) (reg : Registry) : Registry :=
  snaps.foldl
    (fun r p => fun k =>
      if k = p.1 then (r k).map (fun f => { f with value := p.2 }) else r k)
    reg

/-- Embedding of `NC101AProgram._multiply`: resolve the multiplicand, read
the multiplier field value before any mutation, snapshot every receiver,
attempt the quantized store on each receiver in order, and on any failure
restore every snapshot and report `true` (size error); on full success report
`false`.  The result `none` models the uncaught resolution errors
(`InvalidOperation` from the multiplicand, `KeyError` from a receiver name
not in the registry). -/
def multiply (fields : Registry) (consts : Constants) (multiplicand : Token)
    (multiplier : String) (additionalReceivers : List String)
    (roundedReceivers : List String) : Option (Bool × Registry) :=
  match resolveValue fields consts multiplicand with
  | none => none
  | some multiplicandValue =>
    match fields multiplier with
    | none => none
    | some multiplierField =>
      let receivingNames := multiplier :: additionalReceivers
      if receivingNames.all (fun n => (fields n).isSome) then
        let snapshots :=
          receivingNames.filterMap (fun n => (fields n).map (fun f => (n, f.value)))
        let product := multiplicandValue * multiplierField.value
        match attemptAll product roundedReceivers receivingNames fields with
        | none => none
        | some (true, reg) => some (true, restoreValues snapshots reg)
        | some (false, reg) => some (false, reg)
      else none

/-- The at-rest invariant of a field (spec section 3): the stored value is an
integer multiple of `10 ^ -digits_right` and satisfies the width and sign
constraint. -/
abbrev FieldInv (f : Field) : Prop :=
  (f.value * 10 ^ f.digits_right).den = 1 ∧ f.fits f.value = true

/-- The registry-wide at-rest invariant. -/
def RegInv (reg : Registry) : Prop := ∀ n f, reg n = some f → FieldInv f

/-- The field `MULT5` of the source registry: one unsigned integer digit,
holding `4`. -/
def mult5Field : Field := ⟨"MULT5", 1, 0, false, 4⟩

/-- A one-field registry holding `MULT5`, the configuration of test F1-3. -/
def reg5 : Registry := fun n => if n = "MULT5" then some mult5Field else none

/-- An empty constant registry. -/
def consts0 : Constants := fun _ => none

/-- The operand token naming the field `MULT5`. -/
def tok5 : Token := Token.str "MULT5" none

/-- Registry for the multi-receiver divergence scenario (test F1-19): the
multiplicand field `WRK_DU_4P1_1` holding `0.00001`, the multiplier and
rounded receiver `WRK_DU_5V1_1` (5 integer and 1 fractional digit) holding
`12345.6`, and the truncated receiver `WRK_DU_6V0_2` (6 integer digits). -/
def regDiv : Registry := fun n =>
  if n = "WRK_DU_4P1_1" then some ⟨"WRK_DU_4P1_1", 0, 5, false, 0.00001⟩
  else if n = "WRK_DU_5V1_1" then some ⟨"WRK_DU_5V1_1", 5, 1, false, 12345.6⟩
  else if n = "WRK_DU_6V0_2" then some ⟨"WRK_DU_6V0_2", 6, 0, false, 0⟩
  else none

/-- The operand token naming the field `WRK_DU_4P1_1`. -/
def tokDiv : Token := Token.str "WRK_DU_4P1_1" none

/-- A signed field with 5 integer digits and 1 fractional digit, used by the
rounding-law tests. -/
def fld51 : Field := ⟨"RND", 5, 1, true, 0⟩

theorem set_none_eq (f : Field) (r : Bool) : f.set none r = (false, f) := rfl

theorem set_fst_true_iff (f : Field) (v : ℚ) (r : Bool) :
    (f.set (some v) r).1 = true ↔ f.fits (f.quantize v r) = true := by
  by_cases h : f.fits (f.quantize v r) = true <;> simp [Field.set, h]

theorem set_success_snd (f : Field) (v : ℚ) (r : Bool)
    (h : (f.set (some v) r).1 = true) :
    (f.set (some v) r).2 = { f with value := f.quantize v r } := by
  rw [set_fst_true_iff] at h
  simp [Field.set, h]

theorem set_fail_snd (f : Field) (raw : Option ℚ) (r : Bool)
    (h : (f.set raw r).1 = false) : (f.set raw r).2 = f := by
  cases raw with
  | none => rfl
  | some v =>
    by_cases hf : f.fits (f.quantize v r) = true
    · rw [← set_fst_true_iff f v r] at hf
      rw [hf] at h
      exact absurd h (by simp)
    · simp [Field.set, hf]

theorem set_snd_cases (f : Field) (raw : Option ℚ) (r : Bool) :
    (f.set raw r).2 = f ∨
      ∃ v, raw = some v ∧ (f.set raw r).2 = { f with value := f.quantize v r } := by
  cases raw with
  | none => exact Or.inl rfl
  | some v =>
    by_cases hf : f.fits (f.quantize v r) = true
    · exact Or.inr ⟨v, rfl, by simp [Field.set, hf]⟩
    · exact Or.inl (by simp [Field.set, hf])

theorem quantizeRat_mul_den (d : ℕ) (r : Bool) (v : ℚ) :
    (quantizeRat d r v * 10 ^ d).den = 1 := by
  have h10 : ((10 : ℚ) ^ d) ≠ 0 := by positivity
  unfold quantizeRat
  rw [div_mul_cancel₀ _ h10]
  exact Rat.den_intCast _

theorem attemptAll_not_mem (p : ℚ) (rnd : List String) :
    ∀ (names : List String) (reg : Registry) (out : Bool × Registry),
      attemptAll p rnd names reg = some out →
      ∀ n, n ∉ names → out.2 n = reg n := by
  intro names
  induction names with
  | nil =>
    intro reg out h n _
    simp only [attemptAll, Option.some.injEq] at h
    rw [← h]
  | cons k rest ih =>
    intro reg out h n hn
    rw [List.mem_cons, not_or] at hn
    obtain ⟨hnk, hnr⟩ := hn
    simp only [attemptAll] at h
    cases hk : reg k with
    | none => rw [hk] at h; cases h
    | some f =>
      rw [hk] at h
      simp only at h
      split at h
      · have hout := ih _ _ h n hnr
        rw [hout, updateReg, if_neg hnk]
      · cases h
        rfl

theorem attemptAll_diff (p : ℚ) (rnd : List String) :
    ∀ (names : List String) (reg : Registry) (out : Bool × Registry),
      attemptAll p rnd names reg = some out →
      ∀ n, out.2 n = reg n ∨
        ∃ f q, reg n = some f ∧ out.2 n = some { f with value := q } := by
  intro names
  induction names with
  | nil =>
    intro reg out h n
    simp only [attemptAll, Option.some.injEq] at h
    rw [← h]
    exact Or.inl rfl
  | cons k rest ih =>
    intro reg out h n
    simp only [attemptAll] at h
    cases hk : reg k with
    | none => rw [hk] at h; cases h
    | some f =>
      rw [hk] at h
      simp only at h
      split at h
      · rename_i hs
        rcases ih _ _ h n with hsame | ⟨f', q, hf', hout⟩
        · by_cases hnk : n = k
          · subst hnk
            have hupd : updateReg reg n (f.set (some p) (rnd.contains n)).2 n =
                some (f.set (some p) (rnd.contains n)).2 := by
              simp [updateReg]
            rw [hupd] at hsame
            rcases set_snd_cases f (some p) (rnd.contains n) with h2 | ⟨v, _, h2⟩
            · rw [h2, ← hk] at hsame
              exact Or.inl hsame
            · rw [h2] at hsame
              exact Or.inr ⟨f, f.quantize v (rnd.contains n), hk, hsame⟩
          · have hupd : updateReg reg k (f.set (some p) (rnd.contains k)).2 n = reg n := by
              simp [updateReg, hnk]
            rw [hupd] at hsame
            exact Or.inl hsame
        · by_cases hnk : n = k
          · subst hnk
            have hupd : updateReg reg n (f.set (some p) (rnd.contains n)).2 n =
                some (f.set (some p) (rnd.contains n)).2 := by
              simp [updateReg]
            rw [hupd] at hf'
            injection hf' with hx
            rcases set_snd_cases f (some p) (rnd.contains n) with h2 | ⟨v, _, h2⟩
            · rw [← hx, h2] at hout
              exact Or.inr ⟨f, q, hk, hout⟩
            · rw [← hx, h2] at hout
              exact Or.inr ⟨f, q, hk, hout⟩
          · have hupd : updateReg reg k (f.set (some p) (rnd.contains k)).2 n = reg n := by
              simp [updateReg, hnk]
            rw [hupd] at hf'
            exact Or.inr ⟨f', q, hf', hout⟩
      · cases h
        exact Or.inl rfl

theorem attemptAll_success_mem (p : ℚ) (rnd : List String) :
    ∀ (names : List String) (reg regF : Registry),
      attemptAll p rnd names reg = some (false, regF) →
      ∀ n, n ∈ names → ∀ g, reg n = some g →
        regF n = some { g with value := quantizeRat g.digits_right (rnd.contains n) p } := by
  intro names
  induction names with
  | nil =>
    intro reg regF _ n hn
    exact absurd hn (List.not_mem_nil n)
  | cons k rest ih =>
    intro reg regF h n hn g hg
    simp only [attemptAll] at h
    cases hk : reg k with
    | none => rw [hk] at h; cases h
    | some f =>
      rw [hk] at h
      simp only at h
      split at h
      · rename_i hs
        have hsnd : (f.set (some p) (rnd.contains k)).2 =
            { f with value := f.quantize p (rnd.contains k) } :=
          set_success_snd f p (rnd.contains k) hs
        by_cases hnk : n = k
        · subst hnk
          have hgf : g = f := by
            rw [hk] at hg
            injection hg with hx
            exact hx.symm
          subst hgf
          by_cases hkr : n ∈ rest
          · have hmem := ih _ _ h n hkr (g.set (some p) (rnd.contains n)).2
              (by simp [updateReg])
            rw [hmem, hsnd]
          · have hout : regF n = updateReg reg n (g.set (some p) (rnd.contains n)).2 n :=
              attemptAll_not_mem p rnd rest _ _ h n hkr
            have hupd : updateReg reg n (g.set (some p) (rnd.contains n)).2 n =
                some (g.set (some p) (rnd.contains n)).2 := by
              simp [updateReg]
            rw [hout, hupd, hsnd]
            rfl
        · have hnr : n ∈ rest := (List.mem_cons.1 hn).resolve_left hnk
          refine ih _ _ h n hnr g ?_
          have hupd : updateReg reg k (f.set (some p) (rnd.contains k)).2 n = reg n := by
            simp [updateReg, hnk]
          rw [hupd]
          exact hg
      · cases h

theorem attemptAll_inv (p : ℚ) (rnd : List String) :
    ∀ (names : List String) (reg : Registry) (out : Bool × Registry),
      attemptAll p rnd names reg = some out →
      ∀ n g, out.2 n = some g →
        reg n = some g ∨
          ((g.value * 10 ^ g.digits_right).den = 1 ∧ g.fits g.value = true) := by
  intro names
  induction names with
  | nil =>
    intro reg out h n g hg
    simp only [attemptAll, Option.some.injEq] at h
    rw [← h] at hg
    exact Or.inl hg
  | cons k rest ih =>
    intro reg out h n g hg
    simp only [attemptAll] at h
    cases hk : reg k with
    | none => rw [hk] at h; cases h
    | some f =>
      rw [hk] at h
      simp only at h
      split at h
      · rename_i hs
        rcases ih _ _ h n g hg with hcur | hgood
        · rw [updateReg] at hcur
          by_cases hnk : n = k
          · rw [if_pos hnk] at hcur
            have hsnd : (f.set (some p) (rnd.contains k)).2 =
                { f with value := f.quantize p (rnd.contains k) } :=
              set_success_snd f p (rnd.contains k) hs
            have hgval : g = { f with value := f.quantize p (rnd.contains k) } := by
              rw [hsnd] at hcur
              injection hcur
              rename_i hx
              exact hx.symm
            right
            constructor
            · rw [hgval]
              exact quantizeRat_mul_den f.digits_right (rnd.contains k) p
            · rw [hgval]
              rw [set_fst_true_iff] at hs
              exact hs
          · rw [if_neg hnk] at hcur
            exact Or.inl hcur
        · exact Or.inr hgood
      · cases h
        exact Or.inl hg

theorem restoreValues_apply (val : String → ℚ) :
    ∀ (snaps : List (String × ℚ)) (reg : Registry),
      (∀ p ∈ snaps, p.2 = val p.1) →
      ∀ n, restoreValues snaps reg n =
        if n ∈ snaps.map Prod.fst then
          (reg n).map (fun f => { f with value := val n })
        else reg n := by
  intro snaps
  induction snaps with
  | nil =>
    intro reg _ n
    simp [restoreValues]
  | cons p rest ih =>
    intro reg hval n
    have hv : p.2 = val p.1 := hval p (List.mem_cons_self _ _)
    have hrest : ∀ q ∈ rest, q.2 = val q.1 := fun q hq => hval q (List.mem_cons_of_mem _ hq)
    have hstep : restoreValues (p :: rest) reg =
        restoreValues rest
          (fun k => if k = p.1 then (reg k).map (fun f => { f with value := p.2 })
            else reg k) := rfl
    rw [hstep, ih _ hrest n]
    have hconsmem : (n ∈ (p :: rest).map Prod.fst) ↔ n = p.1 ∨ n ∈ rest.map Prod.fst := by
      rw [List.map_cons, List.mem_cons]
    by_cases hnp : n = p.1
    · rw [if_pos (hconsmem.2 (Or.inl hnp))]
      by_cases hmem : n ∈ rest.map Prod.fst
      · rw [if_pos hmem, if_pos hnp]
        cases reg n with
        | none => rfl
        | some f => rfl
      · rw [if_neg hmem, if_pos hnp, hv, ← hnp]
    · have hxfer : (n ∈ rest.map Prod.fst) → (n ∈ (p :: rest).map Prod.fst) :=
        fun hx => hconsmem.2 (Or.inr hx)
      by_cases hmem : n ∈ rest.map Prod.fst
      · rw [if_pos hmem, if_pos (hxfer hmem), if_neg hnp]
      · rw [if_neg hmem, if_neg (fun hc => (hconsmem.1 hc).elim hnp hmem), if_neg hnp]

theorem multiply_elim {fields : Registry} {consts : Constants} {t : Token} {m : String}
    {adds rnd : List String} {b : Bool} {regF : Registry}
    (h : multiply fields consts t m adds rnd = some (b, regF)) :
    ∃ mval mf, resolveValue fields consts t = some mval ∧ fields m = some mf ∧
      (m :: adds).all (fun n => (fields n).isSome) = true ∧
      ((b = true ∧ ∃ reg1,
          attemptAll (mval * mf.value) rnd (m :: adds) fields = some (true, reg1) ∧
          regF = restoreValues
            ((m :: adds).filterMap (fun n => (fields n).map (fun f => (n, f.value)))) reg1) ∨
        (b = false ∧
          attemptAll (mval * mf.value) rnd (m :: adds) fields = some (false, regF))) := by
  unfold multiply at h
  cases hres : resolveValue fields consts t with
  | none => rw [hres] at h; cases h
  | some mval =>
    rw [hres] at h
    cases hmf : fields m with
    | none => rw [hmf] at h; cases h
    | some mf =>
      rw [hmf] at h
      simp only at h
      by_cases hall : (m :: adds).all (fun n => (fields n).isSome) = true
      · rw [if_pos hall] at h
        refine ⟨mval, mf, rfl, rfl, hall, ?_⟩
        cases hatt : attemptAll (mval * mf.value) rnd (m :: adds) fields with
        | none => rw [hatt] at h; cases h
        | some pr =>
          rw [hatt] at h
          obtain ⟨bb, reg1⟩ := pr
          cases bb with
          | false =>
            simp only [Option.some.injEq, Prod.mk.injEq] at h
            exact Or.inr ⟨h.1.symm, by rw [← h.2]⟩
          | true =>
            simp only [Option.some.injEq, Prod.mk.injEq] at h
            exact Or.inl ⟨h.1.symm, reg1, rfl, h.2.symm⟩
      · rw [if_neg hall] at h
        cases h

theorem multiply_rollback {fields : Registry} {consts : Constants} {t : Token}
    {m : String} {adds rnd : List String} {regF : Registry}
    (h : multiply fields consts t m adds rnd = some (true, regF)) :
    ∀ n, regF n = fields n := by
  obtain ⟨mval, mf, hres, hmf, hall, hcase⟩ := multiply_elim h
  rcases hcase with ⟨_, reg1, hatt, hregF⟩ | ⟨hb, _⟩
  · intro n
    have hallmem : ∀ x ∈ m :: adds, (fields x).isSome = true := by
      intro x hx
      exact (List.all_eq_true.1 hall) x hx
    have hsnapval : ∀ p ∈ (m :: adds).filterMap
        (fun x => (fields x).map (fun f => (x, f.value))),
        p.2 = (((fields p.1).map Field.value).getD 0) := by
      intro p hp
      obtain ⟨a, _, hpa⟩ := List.mem_filterMap.1 hp
      cases hfa : fields a with
      | none => rw [hfa] at hpa; cases hpa
      | some fa =>
        rw [hfa] at hpa
        simp only [Option.map_some', Option.some.injEq] at hpa
        rw [← hpa]
        simp [hfa]
    have hfstmem : ∀ x, x ∈ ((m :: adds).filterMap
        (fun y => (fields y).map (fun f => (y, f.value)))).map Prod.fst ↔ x ∈ m :: adds := by
      intro x
      constructor
      · intro hx
        obtain ⟨p, hp, hpx⟩ := List.mem_map.1 hx
        obtain ⟨a, ha, hpa⟩ := List.mem_filterMap.1 hp
        cases hfa : fields a with
        | none => rw [hfa] at hpa; cases hpa
        | some fa =>
          rw [hfa] at hpa
          simp only [Option.map_some', Option.some.injEq] at hpa
          rw [← hpx, ← hpa]
          exact ha
      · intro hx
        cases hfa : fields x with
        | none =>
          have := hallmem x hx
          rw [hfa] at this
          cases this
        | some fx =>
          refine List.mem_map.2 ⟨(x, fx.value), ?_, rfl⟩
          exact List.mem_filterMap.2 ⟨x, hx, by rw [hfa]; rfl⟩
    rw [hregF,
      restoreValues_apply (fun x => ((fields x).map Field.value).getD 0) _ reg1 hsnapval n]
    by_cases hmem : n ∈ m :: adds
    · rw [if_pos ((hfstmem n).2 hmem)]
      cases hfn : fields n with
      | none =>
        have := hallmem n hmem
        rw [hfn] at this
        cases this
      | some fn =>
        rcases attemptAll_diff (mval * mf.value) rnd (m :: adds) fields _ hatt n with
          hsame | ⟨f', q, hf', hout⟩
        · have hsame' : reg1 n = fields n := hsame
          rw [hsame', hfn]
          simp [hfn]
        · have hout' : reg1 n = some { f' with value := q } := hout
          have hff : f' = fn := by
            rw [hfn] at hf'
            injection hf' with hx
            exact hx.symm
          subst hff
          rw [hout']
          simp [hfn]
    · rw [if_neg (fun hc => hmem ((hfstmem n).1 hc))]
      exact attemptAll_not_mem (mval * mf.value) rnd (m :: adds) fields _ hatt n hmem
  · cases hb

theorem multiply_success_core {fields : Registry} {consts : Constants} {t : Token}
    {m : String} {adds rnd : List String} {regF : Registry} {mval : ℚ} {mf : Field}
    (hres : resolveValue fields consts t = some mval)
    (hmf : fields m = some mf)
    (h : multiply fields consts t m adds rnd = some (false, regF)) :
    (∀ n ∈ m :: adds, ∀ g, fields n = some g →
        regF n = some { g with
          value := quantizeRat g.digits_right (rnd.contains n) (mval * mf.value) }) ∧
    (∀ n, n ∉ m :: adds → regF n = fields n) := by
  obtain ⟨mval', mf', hres', hmf', hall, hcase⟩ := multiply_elim h
  rw [hres] at hres'
  injection hres' with hv1
  rw [hmf] at hmf'
  injection hmf' with hv2
  subst hv1
  subst hv2
  rcases hcase with ⟨hb, _⟩ | ⟨_, hatt⟩
  · cases hb
  · constructor
    · intro n hn g hg
      exact attemptAll_success_mem _ rnd (m :: adds) fields regF hatt n hn g hg
    · intro n hn
      exact attemptAll_not_mem _ rnd (m :: adds) fields _ hatt n hn

theorem multiply_inv_core {fields : Registry} {consts : Constants} {t : Token}
    {m : String} {adds rnd : List String} {b : Bool} {regF : Registry}
    (hinv : RegInv fields)
    (h : multiply fields consts t m adds rnd = some (b, regF)) :
    RegInv regF := by
  cases b with
  | true =>
    intro n g hg
    rw [multiply_rollback h n] at hg
    exact hinv n g hg
  | false =>
    obtain ⟨mval, mf, hres, hmf, hall, hcase⟩ := multiply_elim h
    rcases hcase with ⟨hb, _⟩ | ⟨_, hatt⟩
    · cases hb
    · intro n g hg
      rcases attemptAll_inv _ rnd (m :: adds) fields (false, regF) hatt n g hg with
        hsame | hgood
      · exact hinv n g hsame
      · exact hgood

theorem multiply_resolve_none {fields : Registry} {consts : Constants} {t : Token}
    {m : String} {adds rnd : List String}
    (h : resolveValue fields consts t = none) :
    multiply fields consts t m adds rnd = none := by
  unfold multiply
  rw [h]

theorem multiply_multiplier_missing {fields : Registry} {consts : Constants} {t : Token}
    {m : String} {adds rnd : List String}
    (h : fields m = none) :
    multiply fields consts t m adds rnd = none := by
  unfold multiply
  cases hres : resolveValue fields consts t with
  | none => rfl
  | some mval => rw [h]

theorem resolveValue_field {fields : Registry} {consts : Constants} {m : String}
    {f : Field} (h : fields m = some f) (numeric : Option ℚ) :
    resolveValue fields consts (Token.str m numeric) = some f.value := by
  simp only [resolveValue]
  rw [h]

theorem multiply_token_self (fields : Registry) (consts : Constants) (m : String)
    (f : Field) (adds rnd : List String) (h : fields m = some f) :
    multiply fields consts (Token.str m none) m adds rnd =
      multiply fields consts (Token.direct f.value) m adds rnd := by
  unfold multiply
  rw [resolveValue_field h none]
  rfl

theorem ratTrunc_of_nonneg {s : ℚ} (h : 0 ≤ s) : ratTrunc s = ⌊s⌋ := if_pos h

theorem ratTrunc_of_neg {s : ℚ} (h : ¬0 ≤ s) : ratTrunc s = ⌈s⌉ := if_neg h

theorem ratHalfUp_of_nonneg {s : ℚ} (h : 0 ≤ s) : ratHalfUp s = ⌊s + 1 / 2⌋ := if_pos h

theorem ratHalfUp_of_neg {s : ℚ} (h : ¬0 ≤ s) : ratHalfUp s = ⌈s - 1 / 2⌉ := if_neg h

theorem quantizeRat_false (d : ℕ) (v : ℚ) :
    quantizeRat d false v = ((ratTrunc (v * 10 ^ d) : ℤ) : ℚ) / 10 ^ d := by
  simp [quantizeRat]

theorem quantizeRat_true (d : ℕ) (v : ℚ) :
    quantizeRat d true v = ((ratHalfUp (v * 10 ^ d) : ℤ) : ℚ) / 10 ^ d := by
  simp [quantizeRat]

theorem ceil_nonpos_of_nonpos {s : ℚ} (h : s ≤ 0) : ⌈s⌉ ≤ 0 := by
  rw [Int.ceil_le]
  exact_mod_cast h

theorem abs_ratTrunc_le (s : ℚ) : |(ratTrunc s : ℚ)| ≤ |s| := by
  by_cases h : 0 ≤ s
  · rw [ratTrunc_of_nonneg h, abs_of_nonneg h,
      abs_of_nonneg (by exact_mod_cast Int.floor_nonneg.2 h)]
    exact Int.floor_le s
  · have hs : s < 0 := not_le.1 h
    rw [ratTrunc_of_neg h, abs_of_nonpos hs.le,
      abs_of_nonpos (by exact_mod_cast ceil_nonpos_of_nonpos hs.le)]
    exact neg_le_neg (Int.le_ceil s)

theorem abs_lt_ratTrunc_add_one (s : ℚ) : |s| < |(ratTrunc s : ℚ)| + 1 := by
  by_cases h : 0 ≤ s
  · rw [ratTrunc_of_nonneg h, abs_of_nonneg h,
      abs_of_nonneg (by exact_mod_cast Int.floor_nonneg.2 h)]
    exact Int.lt_floor_add_one s
  · have hs : s < 0 := not_le.1 h
    rw [ratTrunc_of_neg h, abs_of_nonpos hs.le,
      abs_of_nonpos (by exact_mod_cast ceil_nonpos_of_nonpos hs.le)]
    have := Int.ceil_lt_add_one s
    linarith

theorem ratTrunc_nonneg {s : ℚ} (h : 0 ≤ s) : 0 ≤ ratTrunc s := by
  rw [ratTrunc_of_nonneg h]
  exact Int.floor_nonneg.2 h

theorem ratTrunc_nonpos {s : ℚ} (h : s ≤ 0) : ratTrunc s ≤ 0 := by
  by_cases h0 : 0 ≤ s
  · have : s = 0 := le_antisymm h h0
    rw [ratTrunc_of_nonneg h0, this]
    simp
  · rw [ratTrunc_of_neg h0]
    exact ceil_nonpos_of_nonpos h

theorem floor_add_half (x : ℚ) :
    ⌊x + 1 / 2⌋ = ⌊x⌋ + (if 1 ≤ 2 * Int.fract x then 1 else 0) := by
  conv_lhs => rw [show x = (⌊x⌋ : ℚ) + Int.fract x from (Int.floor_add_fract x).symm]
  rw [add_assoc, Int.floor_int_add]
  have hf0 : (0 : ℚ) ≤ Int.fract x := Int.fract_nonneg x
  have hf1 : Int.fract x < 1 := Int.fract_lt_one x
  by_cases hhalf : (1 : ℚ) ≤ 2 * Int.fract x
  · rw [if_pos hhalf]
    have h1 : ⌊Int.fract x + 1 / 2⌋ = 1 := by
      rw [Int.floor_eq_iff]
      constructor
      · push_cast
        linarith
      · push_cast
        linarith
    rw [h1]
  · rw [if_neg hhalf]
    have h1 : ⌊Int.fract x + 1 / 2⌋ = 0 := by
      rw [Int.floor_eq_iff]
      constructor
      · push_cast
        linarith
      · push_cast
        linarith
    rw [h1]

theorem ratHalfUp_eq_ratTrunc (s : ℚ) :
    ratHalfUp s = ratTrunc s +
      (if 1 ≤ 2 * |s - (ratTrunc s : ℚ)| then (if 0 ≤ s then 1 else -1) else 0) := by
  by_cases h : 0 ≤ s
  · rw [ratHalfUp_of_nonneg h, ratTrunc_of_nonneg h, if_pos h]
    have habs : |s - ((⌊s⌋ : ℤ) : ℚ)| = Int.fract s := by
      rw [abs_of_nonneg (sub_nonneg.2 (Int.floor_le s)), Int.self_sub_floor]
    rw [habs, floor_add_half s]
  · have hs : s < 0 := not_le.1 h
    have hu : (0 : ℚ) ≤ -s := by linarith
    rw [ratHalfUp_of_neg h, ratTrunc_of_neg h, if_neg h]
    have hc : ⌈s⌉ = -⌊-s⌋ := by
      rw [Int.floor_neg, neg_neg]
    rw [show s - 1 / 2 = -(-s + 1 / 2) by ring, Int.ceil_neg, hc,
      floor_add_half (-s)]
    have habs : |s - ((-⌊-s⌋ : ℤ) : ℚ)| = Int.fract (-s) := by
      rw [show s - ((-⌊-s⌋ : ℤ) : ℚ) = -(-s - ⌊-s⌋) by push_cast; ring, abs_neg,
        abs_of_nonneg (sub_nonneg.2 (Int.floor_le (-s))), Int.self_sub_floor]
    rw [habs]
    by_cases hh : (1 : ℚ) ≤ 2 * Int.fract (-s)
    · rw [if_pos hh, if_pos hh]
      ring
    · rw [if_neg hh, if_neg hh]
      ring

theorem fits_iff (f : Field) (v : ℚ) :
    f.fits v = true ↔ (f.signed = false → 0 ≤ v) ∧
      -(10 : ℚ) ^ f.digits_left < v ∧ v < (10 : ℚ) ^ f.digits_left := by
  unfold Field.fits
  cases hsgn : f.signed with
  | true => simp
  | false =>
    by_cases hv : v < 0
    · have hcond : (!false && decide (v < 0)) = true := by simp [hv]
      rw [if_pos hcond]
      constructor
      · intro hfalse
        cases hfalse
      · rintro ⟨h0, -, -⟩
        exact absurd hv (not_lt.2 (h0 rfl))
    · have hcond : ¬((!false && decide (v < 0)) = true) := by simp [hv]
      rw [if_neg hcond, Bool.and_eq_true, decide_eq_true_eq, decide_eq_true_eq]
      constructor
      · rintro ⟨h1, h2⟩
        exact ⟨fun _ => not_lt.1 hv, h1, h2⟩
      · rintro ⟨-, h1, h2⟩
        exact ⟨h1, h2⟩

/-- Claim C1: every multiply call that returns `size_error = true` leaves every
field of the registry (receivers, the multiplier field itself, and
non-receivers alike) exactly as it was before the call. -/
theorem multiply_size_error_atomic (fields : Registry) (consts : Constants)
    (t : Token) (m : String) (adds rnd : List String)
    (h : (multiply fields consts t m adds rnd).map Prod.fst = some true) :
    ∀ n, (multiply fields consts t m adds rnd).map (fun p => p.2 n) =
      some (fields n) := by
  cases hm : multiply fields consts t m adds rnd with
  | none => rw [hm] at h; cases h
  | some pr =>
    obtain ⟨b, regF⟩ := pr
    rw [hm] at h
    simp only [Option.map_some', Option.some.injEq] at h
    subst h
    intro n
    simp only [Option.map_some', Option.some.injEq]
    exact multiply_rollback hm n

/-- Witness for C1: the self-multiply of the one-digit field `MULT5` holding 4
overflows, and the field is rolled back to 4. -/
theorem multiply_size_error_atomic_witness :
    (multiply reg5 consts0 tok5 "MULT5" [] []).map (fun p => p.2 "MULT5") =
      some (reg5 "MULT5") :=
  multiply_size_error_atomic reg5 consts0 tok5 "MULT5" [] [] (by decide) "MULT5"

/-- Claim C2: every multiply call that returns `size_error = false` stores into
each receiver the exact product of the multiplicand value and the pre-call
multiplier value, quantized to that receiver count of fractional digits with
round-half-up exactly when the receiver is in the rounded set, and leaves
every non-receiver unchanged; concretely, multiplying `0.00001` by `12345.6`
stores `0.1` into the rounded one-fractional-digit receiver and `0` into the
truncated zero-fractional-digit receiver. -/
theorem multiply_success_quantizes :
    (∀ (fields : Registry) (consts : Constants) (t : Token) (m : String)
        (adds rnd : List String) (mval : ℚ) (mf : Field),
      resolveValue fields consts t = some mval →
      fields m = some mf →
      (multiply fields consts t m adds rnd).map Prod.fst = some false →
      (∀ n, n ∈ m :: adds → ∀ g, fields n = some g →
        (multiply fields consts t m adds rnd).map (fun p => p.2 n) =
          some (some { g with
            value := quantizeRat g.digits_right (rnd.contains n) (mval * mf.value) })) ∧
      (∀ n, n ∉ m :: adds →
        (multiply fields consts t m adds rnd).map (fun p => p.2 n) =
          some (fields n))) ∧
    (multiply regDiv consts0 tokDiv "WRK_DU_5V1_1" ["WRK_DU_6V0_2"]
        ["WRK_DU_5V1_1"]).map
        (fun p => (p.2 "WRK_DU_5V1_1", p.2 "WRK_DU_6V0_2")) =
      some (some ⟨"WRK_DU_5V1_1", 5, 1, false, 0.1⟩,
        some ⟨"WRK_DU_6V0_2", 6, 0, false, 0⟩) := by
  constructor
  · intro fields consts t m adds rnd mval mf hres hmf h
    cases hm : multiply fields consts t m adds rnd with
    | none => rw [hm] at h; cases h
    | some pr =>
      obtain ⟨b, regF⟩ := pr
      rw [hm] at h
      simp only [Option.map_some', Option.some.injEq] at h
      subst h
      obtain ⟨hmem, hnot⟩ := multiply_success_core hres hmf hm
      constructor
      · intro n hn g hg
        simp only [Option.map_some', Option.some.injEq]
        exact hmem n hn g hg
      · intro n hn
        simp only [Option.map_some', Option.some.injEq]
        exact hnot n hn
  · decide

/-- Witness for C2: the divergence scenario applied at the rounded receiver,
with every hypothesis discharged on the concrete registry. -/
theorem multiply_success_quantizes_witness :
    (multiply regDiv consts0 tokDiv "WRK_DU_5V1_1" ["WRK_DU_6V0_2"]
        ["WRK_DU_5V1_1"]).map (fun p => p.2 "WRK_DU_5V1_1") =
      some (some ⟨"WRK_DU_5V1_1", 5, 1, false,
        quantizeRat 1 (["WRK_DU_5V1_1"].contains "WRK_DU_5V1_1")
          (0.00001 * 12345.6)⟩) :=
  (multiply_success_quantizes.1 regDiv consts0 tokDiv "WRK_DU_5V1_1"
      ["WRK_DU_6V0_2"] ["WRK_DU_5V1_1"] 0.00001
      ⟨"WRK_DU_5V1_1", 5, 1, false, 12345.6⟩ (by decide) (by decide)
      (by decide)).1 "WRK_DU_5V1_1" (List.mem_cons_self _ _)
    ⟨"WRK_DU_5V1_1", 5, 1, false, 12345.6⟩ (by decide)

/-- Counterexample for C3: on an unsigned one-digit field, `set` of the
negative raw value `-0.4` under truncation succeeds (its quantization is 0),
refuting that `set` fails for any negative value; and `set` of `9.5` under
round-half-up fails even though its magnitude is below `10 ^ 1`, refuting
that `set` succeeds for every value of magnitude below `10 ^ digits_left`. -/
theorem set_width_counterexample :
    ((⟨"F", 1, 0, false, 7⟩ : Field).set (some (-(2 / 5))) false).1 = true ∧
    ((⟨"F", 1, 0, false, 7⟩ : Field).set (some (19 / 2)) true).1 = false := by
  decide

/-- Claim C3 (amended): with the width and sign checks read on the quantized
value, `set` succeeds exactly when the quantized value is nonnegative (for an
unsigned field) and lies strictly between `-10 ^ digits_left` and
`10 ^ digits_left`; in particular a signed field applies the strict
inequality to the quantized value, and an unsigned field fails exactly on a
negative or too-large quantized value. -/
theorem set_fit_iff_quantized (f : Field) (v : ℚ) (r : Bool) :
    (f.set (some v) r).1 = true ↔
      (f.signed = false → 0 ≤ quantizeRat f.digits_right r v) ∧
      -(10 : ℚ) ^ f.digits_left < quantizeRat f.digits_right r v ∧
      quantizeRat f.digits_right r v < (10 : ℚ) ^ f.digits_left := by
  rw [set_fst_true_iff]
  exact fits_iff f (f.quantize v r)

/-- Claim C4: truncation quantizes to an exact multiple of
`10 ^ -digits_right`, never increases the magnitude, discards less than one
unit of the last retained place, and never crosses zero; round-half-up equals
truncation plus one unit away from zero exactly when the discarded remainder
is at least half a unit of the last retained place; and on a field with one
fractional digit, `set 12345.65` rounded gives `12345.7`, `set 12345.64`
rounded gives `12345.6`, and `set 12345.65` truncated gives `12345.6`. -/
theorem set_rounding_law :
    (∀ (d : ℕ) (v : ℚ),
      (quantizeRat d false v * 10 ^ d).den = 1 ∧
      |quantizeRat d false v| ≤ |v| ∧
      |v| < |quantizeRat d false v| + ((10 : ℚ) ^ d)⁻¹ ∧
      (0 ≤ v → 0 ≤ quantizeRat d false v) ∧
      (v ≤ 0 → quantizeRat d false v ≤ 0)) ∧
    (∀ (d : ℕ) (v : ℚ),
      quantizeRat d true v * 10 ^ d =
        ((ratTrunc (v * 10 ^ d) +
            (if 1 ≤ 2 * |v * 10 ^ d - (ratTrunc (v * 10 ^ d) : ℚ)| then
              (if 0 ≤ v then 1 else -1) else 0) : ℤ) : ℚ)) ∧
    fld51.set (some 12345.65) true = (true, { fld51 with value := 12345.7 }) ∧
    fld51.set (some 12345.64) true = (true, { fld51 with value := 12345.6 }) ∧
    fld51.set (some 12345.65) false = (true, { fld51 with value := 12345.6 }) := by
  refine ⟨?_, ?_, by decide, by decide, by decide⟩
  · intro d v
    have h10 : (0 : ℚ) < 10 ^ d := by positivity
    have habs10 : |(10 : ℚ) ^ d| = 10 ^ d := abs_of_pos h10
    have habsv : |v| = |v * 10 ^ d| / 10 ^ d := by
      rw [abs_mul, habs10]
      field_simp
    refine ⟨quantizeRat_mul_den d false v, ?_, ?_, ?_, ?_⟩
    · rw [quantizeRat_false, abs_div, habs10, habsv]
      exact (div_le_div_iff_of_pos_right h10).2 (abs_ratTrunc_le _)
    · rw [quantizeRat_false, abs_div, habs10, habsv, ← one_div, div_add_div_same]
      exact (div_lt_div_iff_of_pos_right h10).2 (abs_lt_ratTrunc_add_one _)
    · intro hv
      rw [quantizeRat_false]
      refine div_nonneg ?_ h10.le
      exact_mod_cast ratTrunc_nonneg (mul_nonneg hv h10.le)
    · intro hv
      rw [quantizeRat_false]
      have ht : (ratTrunc (v * 10 ^ d) : ℚ) ≤ 0 := by
        exact_mod_cast ratTrunc_nonpos (mul_nonpos_iff.2 (Or.inr ⟨hv, h10.le⟩))
      exact div_nonpos_iff.2 (Or.inr ⟨ht, h10.le⟩)
  · intro d v
    have h10 : (0 : ℚ) < 10 ^ d := by positivity
    have hcancel : quantizeRat d true v * 10 ^ d =
        ((ratHalfUp (v * 10 ^ d) : ℤ) : ℚ) := by
      rw [quantizeRat_true, div_mul_cancel₀ _ h10.ne']
    rw [hcancel, ratHalfUp_eq_ratTrunc]
    have hsign : (0 ≤ v * 10 ^ d) = (0 ≤ v) := by
      apply propext
      constructor
      · intro hvp
        by_contra hneg
        push_neg at hneg
        nlinarith
      · intro hv
        exact mul_nonneg hv h10.le
    simp only [hsign]

/-- Claim C5: the multiplier field value used in the product is the one read
before any mutation, so a token naming the multiplier resolves to the
pre-call value; concretely, the one-digit field `MULT5` holding 4 multiplied
by itself computes 16, the 16 fails the one-digit width check, the call
reports `size_error = true`, and the field still holds 4. -/
theorem multiply_reads_multiplier_first :
    (∀ (fields : Registry) (consts : Constants) (m : String) (f : Field)
        (adds rnd : List String), fields m = some f →
      multiply fields consts (Token.str m none) m adds rnd =
        multiply fields consts (Token.direct f.value) m adds rnd) ∧
    resolveValue reg5 consts0 tok5 = some 4 ∧
    quantizeRat 0 false ((4 : ℚ) * 4) = 16 ∧
    mult5Field.fits 16 = false ∧
    (multiply reg5 consts0 tok5 "MULT5" [] []).map Prod.fst = some true ∧
    (multiply reg5 consts0 tok5 "MULT5" [] []).map (fun p => p.2 "MULT5") =
      some (some mult5Field) := by
  refine ⟨?_, by decide, by decide, by decide, by decide, by decide⟩
  intro fields consts m f adds rnd h
  exact multiply_token_self fields consts m f adds rnd h

/-- Witness for C5: the general pre-read property applied at the concrete
self-multiply of `MULT5`. -/
theorem multiply_reads_multiplier_first_witness :
    multiply reg5 consts0 (Token.str "MULT5" none) "MULT5" [] [] =
      multiply reg5 consts0 (Token.direct mult5Field.value) "MULT5" [] [] :=
  multiply_reads_multiplier_first.1 reg5 consts0 "MULT5" mult5Field [] [] (by decide)

/-- Claim C6: a `set` call that fails, whether on malformed input (the `none`
raw value), a quantization error, or a fit violation, returns `false` as a
value rather than raising and leaves the stored field value untouched. -/
theorem set_failure_leaves_unchanged :
    (∀ (f : Field) (r : Bool), f.set none r = (false, f)) ∧
    (∀ (f : Field) (raw : Option ℚ) (r : Bool),
      (f.set raw r).1 = false → (f.set raw r).2 = f) :=
  ⟨set_none_eq, set_fail_snd⟩

/-- Witness for C6: a fit violation on an unsigned field leaves the field
unchanged. -/
theorem set_failure_leaves_unchanged_witness :
    ((⟨"W", 1, 0, false, 3⟩ : Field).set (some (-5)) false).1 = false ∧
    ((⟨"W", 1, 0, false, 3⟩ : Field).set (some (-5)) false).2 =
      ⟨"W", 1, 0, false, 3⟩ :=
  ⟨by decide,
    set_failure_leaves_unchanged.2 ⟨"W", 1, 0, false, 3⟩ (some (-5)) false (by decide)⟩

/-- Claim C7: a multiplicand token that resolves to nothing (neither literal,
field, nor constant) or a multiplier name absent from the registry makes the
multiply call raise (result `none`), which is disjoint from every size-error
outcome `some (true, _)`. -/
theorem multiply_resolution_error_distinct :
    (∀ (fields : Registry) (consts : Constants) (t : Token) (m : String)
        (adds rnd : List String), resolveValue fields consts t = none →
      multiply fields consts t m adds rnd = none) ∧
    (∀ (fields : Registry) (consts : Constants) (t : Token) (m : String)
        (adds rnd : List String), fields m = none →
      multiply fields consts t m adds rnd = none) := by
  constructor
  · intro fields consts t m adds rnd h
    exact multiply_resolve_none h
  · intro fields consts t m adds rnd h
    exact multiply_multiplier_missing h

/-- Witness for C7: an unknown token over the concrete registry makes the
call raise rather than report a size error. -/
theorem multiply_resolution_error_distinct_witness :
    resolveValue reg5 consts0 (Token.str "BOGUS" none) = none ∧
    multiply reg5 consts0 (Token.str "BOGUS" none) "MULT5" [] [] = none :=
  ⟨by decide,
    multiply_resolution_error_distinct.1 reg5 consts0 (Token.str "BOGUS" none)
      "MULT5" [] [] (by decide)⟩

/-- Claim C8: both `set` and `multiply` preserve the at-rest invariant: every
field stored in the registry afterward is quantized to exactly its own
`digits_right` fractional digits and satisfies its width and sign check,
including on the rollback path that writes snapshot values back. -/
theorem multiply_preserves_invariant :
    (∀ (f : Field) (raw : Option ℚ) (r : Bool),
      FieldInv f → FieldInv ((f.set raw r).2)) ∧
    (∀ (fields : Registry) (consts : Constants) (t : Token) (m : String)
        (adds rnd : List String), RegInv fields →
      ∀ (n : String) (g : Field),
        (multiply fields consts t m adds rnd).map (fun p => p.2 n) =
          some (some g) →
        FieldInv g) := by
  constructor
  · intro f raw r hinv
    by_cases hs : (f.set raw r).1 = true
    · cases raw with
      | none => simp [Field.set] at hs
      | some v =>
        rw [set_success_snd f v r hs]
        refine ⟨quantizeRat_mul_den _ _ _, ?_⟩
        rw [set_fst_true_iff] at hs
        exact hs
    · have hfalse : (f.set raw r).1 = false := by
        rwa [Bool.not_eq_true] at hs
      rw [set_fail_snd f raw r hfalse]
      exact hinv
  · intro fields consts t m adds rnd hinv n g hmap
    cases hm : multiply fields consts t m adds rnd with
    | none => rw [hm] at hmap; cases hmap
    | some pr =>
      obtain ⟨b, regF⟩ := pr
      rw [hm] at hmap
      simp only [Option.map_some', Option.some.injEq] at hmap
      exact multiply_inv_core hinv hm n g hmap

/-- Witness for C8: the concrete registry satisfies the invariant and the
field produced by the overflowing self-multiply of `MULT5` still does. -/
theorem multiply_preserves_invariant_witness :
    RegInv reg5 ∧ FieldInv mult5Field := by
  have hinv : RegInv reg5 := by
    intro n f h
    simp only [reg5] at h
    split at h
    · injection h with hx
      rw [← hx]
      decide
    · cases h
  exact ⟨hinv,
    multiply_preserves_invariant.2 reg5 consts0 tok5 "MULT5" [] [] hinv "MULT5"
      mult5Field (by decide)⟩

/-- Claim C9: a multiply call from a state that reports `size_error = true`
leaves the state unchanged, and re-running the identical call from the
post-rollback state gives back the identical outcome, flag and state alike. -/
theorem multiply_size_error_idempotent (fields : Registry) (consts : Constants)
    (t : Token) (m : String) (adds rnd : List String)
    (h : (multiply fields consts t m adds rnd).map Prod.fst = some true) :
    (∀ n, (multiply fields consts t m adds rnd).map (fun p => p.2 n) =
      some (fields n)) ∧
    ((multiply fields consts t m adds rnd).bind
        (fun p => multiply p.2 consts t m adds rnd) =
      multiply fields consts t m adds rnd) := by
  cases hm : multiply fields consts t m adds rnd with
  | none => rw [hm] at h; cases h
  | some pr =>
    obtain ⟨b, regF⟩ := pr
    rw [hm] at h
    simp only [Option.map_some', Option.some.injEq] at h
    subst h
    have hroll := multiply_rollback hm
    have hreg : regF = fields := funext hroll
    constructor
    · intro n
      simp only [Option.map_some', Option.some.injEq]
      exact hroll n
    · show multiply regF consts t m adds rnd = some (true, regF)
      have hcall : multiply regF consts t m adds rnd =
          multiply fields consts t m adds rnd := by
        rw [hreg]
      rw [hcall]
      exact hm

/-- Witness for C9: re-running the failed self-multiply of `MULT5` from the
rolled-back state returns the same result. -/
theorem multiply_size_error_idempotent_witness :
    (multiply reg5 consts0 tok5 "MULT5" [] []).bind
        (fun p => multiply p.2 consts0 tok5 "MULT5" [] []) =
      multiply reg5 consts0 tok5 "MULT5" [] [] :=
  (multiply_size_error_idempotent reg5 consts0 tok5 "MULT5" [] [] (by decide)).2

/-- Claim C10: on an unsigned field the fit check rejects only quantized
values that are strictly negative, so a negative raw value whose quantization
is zero is accepted and stores zero; concretely `set(-0.4, truncate)` on an
unsigned field with no fractional digits succeeds and stores 0. -/
theorem set_negative_quantized_zero :
    (∀ (f : Field) (v : ℚ) (r : Bool), f.signed = false →
      quantizeRat f.digits_right r v = 0 →
      f.set (some v) r = (true, { f with value := 0 })) ∧
    ((⟨"U", 1, 0, false, 7⟩ : Field).set (some (-(2 / 5))) false =
      (true, ⟨"U", 1, 0, false, 0⟩)) := by
  constructor
  · intro f v r _hs hq
    have hquant : f.quantize v r = 0 := hq
    have hfits : f.fits (f.quantize v r) = true := by
      rw [hquant]
      refine (fits_iff f 0).2 ⟨fun _ => le_refl 0, ?_, ?_⟩
      · have hpos : (0 : ℚ) < 10 ^ f.digits_left := by positivity
        linarith
      · positivity
    have h1 : (f.set (some v) r).1 = true := (set_fst_true_iff f v r).2 hfits
    have h2 : (f.set (some v) r).2 = { f with value := f.quantize v r } :=
      set_success_snd f v r h1
    refine Prod.ext ?_ ?_
    · rw [h1]
    · rw [h2, hquant]
  · decide

/-- Witness for C10: the general zero-quantization property applied at a
concrete unsigned field and raw value `-0.4`. -/
theorem set_negative_quantized_zero_witness :
    (⟨"U", 2, 0, false, 9⟩ : Field).set (some (-(2 / 5))) false =
      (true, { (⟨"U", 2, 0, false, 9⟩ : Field) with value := 0 }) :=
  set_negative_quantized_zero.1 ⟨"U", 2, 0, false, 9⟩ (-(2 / 5)) false rfl (by decide)

end NC101A
